import Mathlib

/-!
Verification of the pacti A/G-contract core: the `mathset` set algebra
(src/cpp/mathset.h), design variables (src/designvar.h), the Term/TermSet
layer (src/term.h) and `IoContract` with its `compose` operation
(src/iocontract.h, src/iocontract.cpp), shallowly embedded in Lean.

Value semantics: a C++ `mathset<T>` (an `std::unordered_set<T>` with
unspecified iteration order, duplicates absorbed, extensional equality)
is embedded as `Finset T`.  Heap pointers are dropped: every operation
returns a fresh value, as the sources do (each operation news a result).
-/

namespace Pacti

/-- Embeds `designvar` (src/designvar.h): a named atom; equality, and the
hash the source derives from it, are determined by `name` alone. -/
structure designvar where
  name : String
deriving DecidableEq

/-- Embeds `mathset<T>` (src/cpp/mathset.h): a value-semantic unordered set. -/
abbrev mathset (T : Type) := Finset T

/-- Embeds `mathset<T>::contains` (src/cpp/mathset.h): membership test via
`find != end`. -/
def contains {T : Type} [DecidableEq T] (s : mathset T) (element : T) : Bool :=
  element ∈ s

/-- Embeds `mathset<T>::setint` (src/cpp/mathset.h): iterate the smaller
operand (`basea`), probe the larger (`baseb`), inserting the hits into a
fresh result.  The operand swap on sizes is kept. -/
def setint {T : Type} [DecidableEq T] (a other : mathset T) : mathset T :=
  if other.card < a.card then
    Finset.filter (fun x => contains a x) other
  else
    Finset.filter (fun x => contains other x) a

/-- Embeds `mathset<T>::setunion` (src/cpp/mathset.h): insert every element
of the receiver, then every element of `other`, into a fresh result. -/
def setunion {T : Type} [DecidableEq T] (a other : mathset T) : mathset T :=
  a ∪ other

/-- Embeds `mathset<T>::setdiff` (src/cpp/mathset.h): keep exactly the
elements of the receiver that `other` does not contain. -/
def setdiff {T : Type} [DecidableEq T] (a other : mathset T) : mathset T :=
  Finset.filter (fun x => ¬ contains other x) a

/-- Embeds `mathset<T>::isdisjoint` (src/cpp/mathset.h): true iff the
intersection is empty. -/
def isdisjoint {T : Type} [DecidableEq T] (a other : mathset T) : Bool :=
  setint a other = ∅

theorem contains_iff {T : Type} [DecidableEq T] (s : mathset T) (x : T) :
    contains s x = true ↔ x ∈ s := by
  simp [contains]

theorem setint_eq_inter {T : Type} [DecidableEq T] (a b : mathset T) :
    setint a b = a ∩ b := by
  unfold setint
  split <;> ext x <;>
    simp only [Finset.mem_filter, contains_iff, Finset.mem_inter] <;> tauto

theorem setunion_eq_union {T : Type} [DecidableEq T] (a b : mathset T) :
    setunion a b = a ∪ b := rfl

theorem setdiff_eq_sdiff {T : Type} [DecidableEq T] (a b : mathset T) :
    setdiff a b = a \ b := by
  ext x
  simp [setdiff, contains_iff, Finset.mem_sdiff]

theorem isdisjoint_iff {T : Type} [DecidableEq T] (a b : mathset T) :
    isdisjoint a b = true ↔ a ∩ b = ∅ := by
  simp [isdisjoint, setint_eq_inter]

/-- Embeds `VarSet` (src/designvar.h): `using VarSet = mathset<designvar>`. -/
abbrev VarSet := mathset designvar

/-- Embeds the abstract `Term` base class (src/term.h) as a capability: the
core only calls the virtual `getvars` on terms; equality and the content
hash are covered by `DecidableEq` on the concrete term type. -/
class TermIntf (Term : Type) where
  getvars : Term → VarSet

/-- Embeds `TermSet` (src/term.h): `class TermSet : public mathset<Term*>`. -/
abbrev TermSet (Term : Type) := mathset Term

/-- Embeds `TermSet::getVars` (src/term.h): starting from a fresh empty
result, fold `setunion` of the members' variable sets over the set, in
unspecified order; this is the finite supremum of `getvars` over the set. -/
def TermSet.getVars {Term : Type} [DecidableEq Term] [TermIntf Term]
    (s : TermSet Term) : VarSet :=
  Finset.sup s (fun t => TermIntf.getvars t)

/-- Embeds `TermSet::sharedVariables` (src/term.h): the intersection of the
two term sets' variable sets. -/
def TermSet.sharedVariables {Term : Type} [DecidableEq Term] [TermIntf Term]
    (s other : TermSet Term) : VarSet :=
  setint (TermSet.getVars s) (TermSet.getVars other)

/-- Embeds `TermSet::getTermsWithVars` (src/term.h).  The source declares
`TermSet* result;` and immediately calls `result->clear()` and later
`result->insert(...)` through the never-initialised pointer, so the call has
no defined result; the undefined behaviour is modelled as `none`. -/
def TermSet.getTermsWithVars {Term : Type} [DecidableEq Term] [TermIntf Term]
    (s : TermSet Term) (vars : VarSet) : Option (TermSet Term) :=
  none

/-- Modelled from the spec: section 9 note 3 declares the source's
`getTermsWithVars` undefined and defines the operation as a fresh set
containing exactly the terms of the receiver whose free variables intersect
`vars` (the filter the source's loop attempts). -/
def TermSet.termsWith {Term : Type} [DecidableEq Term] [TermIntf Term]
    (s : TermSet Term) (vars : VarSet) : TermSet Term :=
  Finset.filter (fun t => ¬ isdisjoint (TermIntf.getvars t) vars) s

/-- Embeds `IoContract` (src/iocontract.h): the four stored fields.  The
source constructor assigns the four arguments to the fields and does
nothing else, which is exactly `IoContract.mk`. -/
structure IoContract (Term : Type) where
  inputs : VarSet
  outputs : VarSet
  assumptions : TermSet Term
  guarantees : TermSet Term
deriving DecidableEq

/-- Embeds `IoContract::getInputs` (src/iocontract.h). -/
def IoContract.getInputs {Term : Type} (c : IoContract Term) : VarSet :=
  c.inputs

/-- Embeds `IoContract::getOutputs` (src/iocontract.h). -/
def IoContract.getOutputs {Term : Type} (c : IoContract Term) : VarSet :=
  c.outputs

/-- Embeds `IoContract::getAssumptions` (src/iocontract.h). -/
def IoContract.getAssumptions {Term : Type} (c : IoContract Term) :
    TermSet Term :=
  c.assumptions

/-- Embeds `IoContract::getGuarantees` (src/iocontract.h). -/
def IoContract.getGuarantees {Term : Type} (c : IoContract Term) :
    TermSet Term :=
  c.guarantees

/-- The failure modes of `IoContract::compose` (src/iocontract.cpp):
`invariantViolation` models the `assert` on disjoint outputs firing, and
`undefinedAssumptions` models the read of the uninitialised local
`assumptions_comp` when neither `if` branch ran. -/
inductive ContractError where
  | invariantViolation
  | undefinedAssumptions
deriving DecidableEq

/-- Embeds the local `internalvars` of `IoContract::compose`
(src/iocontract.cpp): `(Ao ∩ Bi) ∪ (Ai ∩ Bo)`. -/
def IoContract.internalvars {Term : Type} (a other : IoContract Term) :
    VarSet :=
  setunion (setint (IoContract.getOutputs a) (IoContract.getInputs other))
    (setint (IoContract.getInputs a) (IoContract.getOutputs other))

/-- Embeds the local `outvars` of `IoContract::compose` (src/iocontract.cpp):
`(Ao ∪ Bo) \ internalvars`. -/
def IoContract.outvars {Term : Type} (a other : IoContract Term) : VarSet :=
  setdiff (setunion (IoContract.getOutputs a) (IoContract.getOutputs other))
    (IoContract.internalvars a other)

/-- Embeds the local `invars` of `IoContract::compose` (src/iocontract.cpp):
`(Ai ∪ Bi) \ internalvars \ outvars`. -/
def IoContract.invars {Term : Type} (a other : IoContract Term) : VarSet :=
  setdiff
    (setdiff (setunion (IoContract.getInputs a) (IoContract.getInputs other))
      (IoContract.internalvars a other))
    (IoContract.outvars a other)

/-- Embeds the local `varsNotInAssumptions` of `IoContract::compose`
(src/iocontract.cpp): `outvars ∪ internalvars`. -/
def IoContract.varsNotInAssumptions {Term : Type} (a other : IoContract Term) :
    VarSet :=
  setunion (IoContract.outvars a other) (IoContract.internalvars a other)

/-- Embeds the computation of the local `assumptions_comp` in
`IoContract::compose` (src/iocontract.cpp).  The pure virtual
`simplifyWithTerms` is a parameter.  The `if` / `else if` chain has no
`else`, so when neither condition holds `assumptions_comp` stays
uninitialised, modelled as `none`. -/
def IoContract.assumptionsComp {Term : Type} [DecidableEq Term] [TermIntf Term]
    (simplifyWithTerms : TermSet Term → TermSet Term → VarSet → TermSet Term)
    (a other : IoContract Term) : Option (TermSet Term) :=
  if ¬ setint
      (TermSet.sharedVariables (IoContract.getAssumptions a)
        (IoContract.getGuarantees other))
      (IoContract.varsNotInAssumptions a other) = ∅ then
    some (setunion
      (simplifyWithTerms (IoContract.getAssumptions a)
        (IoContract.getGuarantees other)
        (IoContract.varsNotInAssumptions a other))
      (IoContract.getAssumptions other))
  else if ¬ setint
      (TermSet.sharedVariables (IoContract.getAssumptions other)
        (IoContract.getGuarantees a))
      (IoContract.varsNotInAssumptions a other) = ∅ then
    some (setunion
      (simplifyWithTerms (IoContract.getAssumptions other)
        (IoContract.getGuarantees a)
        (IoContract.varsNotInAssumptions a other))
      (IoContract.getAssumptions a))
  else
    none

/-- Embeds `IoContract::compose` (src/iocontract.cpp).  The leading
`assert(this->getOutputs()->isdisjoint(other->getOutputs()))` is the
`invariantViolation` exit; a read of the uninitialised `assumptions_comp`
is the `undefinedAssumptions` exit; otherwise the fresh composite contract
with `guarantees_comp = simplifyWithTerms (Ag ∪ Bg) assumptions_comp
internalvars` is returned. -/
def IoContract.compose {Term : Type} [DecidableEq Term] [TermIntf Term]
    (simplifyWithTerms : TermSet Term → TermSet Term → VarSet → TermSet Term)
    (a other : IoContract Term) :
    Except ContractError (IoContract Term) :=
  if isdisjoint (IoContract.getOutputs a) (IoContract.getOutputs other) then
    match IoContract.assumptionsComp simplifyWithTerms a other with
    | some ac =>
        Except.ok
          ⟨IoContract.invars a other, IoContract.outvars a other, ac,
            simplifyWithTerms
              (setunion (IoContract.getGuarantees a)
                (IoContract.getGuarantees other))
              ac (IoContract.internalvars a other)⟩
    | none => Except.error ContractError.undefinedAssumptions
  else
    Except.error ContractError.invariantViolation

/-- A minimal concrete term kind used to exercise the parametric core on
closed inputs: a label (standing for the predicate) together with the list
of its free variables, as a concrete Term implementation would supply. -/
structure VTerm where
  label : String
  freevars : List designvar
deriving DecidableEq

instance : TermIntf VTerm :=
  ⟨fun t => t.freevars.toFinset⟩

/-- A concrete instantiation of the pure virtual `simplifyWithTerms` used on
closed inputs: drop every term that mentions a variable scheduled for
elimination, ignoring the context.  Any function of this signature is a
legal implementation of the virtual. -/
def dropElimTerms {Term : Type} [DecidableEq Term] [TermIntf Term]
    (s other : TermSet Term) (varsToElim : VarSet) : TermSet Term :=
  Finset.filter (fun t => isdisjoint (TermIntf.getvars t) varsToElim) s

instance {e a : Type} [DecidableEq e] [DecidableEq a] :
    DecidableEq (Except e a) := fun x y =>
  match x, y with
  | Except.error u, Except.error v =>
      if h : u = v then isTrue (congrArg Except.error h)
      else isFalse (fun hc => h (Except.error.inj hc))
  | Except.error _, Except.ok _ => isFalse (fun hc => Except.noConfusion hc)
  | Except.ok _, Except.error _ => isFalse (fun hc => Except.noConfusion hc)
  | Except.ok u, Except.ok v =>
      if h : u = v then isTrue (congrArg Except.ok h)
      else isFalse (fun hc => h (Except.ok.inj hc))

/-! Closed fixtures used by witnesses and counterexamples: named design
variables, concrete terms and concrete contracts (the trivial composition
of the spec's scenario S3, a series composition with one shared wire, and
a pair of contracts sharing the output `x`). -/

def va : designvar := ⟨"a"⟩

def vb : designvar := ⟨"b"⟩

def vc : designvar := ⟨"c"⟩

def vd : designvar := ⟨"d"⟩

def vx : designvar := ⟨"x"⟩

def tAg : VTerm := ⟨"b eq a+1", [va, vb]⟩

def tBg : VTerm := ⟨"d eq 2c", [vc, vd]⟩

def cA : IoContract VTerm := ⟨{va}, {vb}, ∅, {tAg}⟩

def cB : IoContract VTerm := ⟨{vc}, {vd}, ∅, {tBg}⟩

def cX : IoContract VTerm := ⟨∅, {vx}, ∅, ∅⟩

def cY : IoContract VTerm := ⟨∅, {vx}, ∅, ∅⟩

def cS1 : IoContract VTerm := ⟨{va}, {vb}, {⟨"a1", [vb]⟩}, {⟨"g1", [va, vb]⟩}⟩

def cS2 : IoContract VTerm := ⟨{vb}, {vc}, {⟨"a2", [vb]⟩}, {⟨"g2", [vb, vc]⟩}⟩

/-- C8: `setunion` and `setint` are commutative extensionally, for every
element type with decidable equality, even though `setint` picks which
operand to iterate and which to probe from the operands' sizes. -/
theorem setunion_setint_comm {T : Type} [DecidableEq T] (a b : mathset T) :
    setunion a b = setunion b a ∧ setint a b = setint b a := by
  constructor
  · rw [setunion_eq_union, setunion_eq_union, Finset.union_comm]
  · rw [setint_eq_inter, setint_eq_inter, Finset.inter_comm]

/-- C10: the empty set is a unit for the mathset operations: for every set
`a`, `setunion a ∅ = a`, `setint a ∅ = ∅` and `setdiff a ∅ = a`. -/
theorem setops_empty_unit {T : Type} [DecidableEq T] (a : mathset T) :
    setunion a ∅ = a ∧ setint a ∅ = ∅ ∧ setdiff a ∅ = a := by
  refine ⟨?_, ?_, ?_⟩
  · rw [setunion_eq_union, Finset.union_empty]
  · rw [setint_eq_inter, Finset.inter_empty]
  · rw [setdiff_eq_sdiff, Finset.sdiff_empty]

/-- C9: the `IoContract` constructor stores its four arguments without any
validation: for every four arguments, construction succeeds and the four
getters return exactly the arguments passed, unchanged. -/
theorem ioContract_stores_arguments {Term : Type}
    (i o : VarSet) (assmpt gtees : TermSet Term) :
    IoContract.getInputs (IoContract.mk i o assmpt gtees) = i ∧
    IoContract.getOutputs (IoContract.mk i o assmpt gtees) = o ∧
    IoContract.getAssumptions (IoContract.mk i o assmpt gtees) = assmpt ∧
    IoContract.getGuarantees (IoContract.mk i o assmpt gtees) = gtees :=
  ⟨rfl, rfl, rfl, rfl⟩

/-- C7: `getVars` is a union homomorphism — the variable set of a union of
TermSets is the union of their variable sets — and the variable set of a
TermSet is the union of `getvars` over its members (stated by
membership). -/
theorem getVars_union_hom {Term : Type} [DecidableEq Term] [TermIntf Term]
    (t1 t2 : TermSet Term) :
    TermSet.getVars (setunion t1 t2)
      = setunion (TermSet.getVars t1) (TermSet.getVars t2) ∧
    ∀ x : designvar,
      x ∈ TermSet.getVars t1 ↔ ∃ m ∈ t1, x ∈ TermIntf.getvars m := by
  constructor
  · rw [setunion_eq_union, setunion_eq_union]
    unfold TermSet.getVars
    rw [Finset.sup_union, Finset.sup_eq_union]
  · intro x
    unfold TermSet.getVars
    exact Finset.mem_sup

/-- C2: for contracts with disjoint output sets, the three variable sets
computed by `compose` — `invars`, `outvars`, `internalvars` — are pairwise
disjoint and their union is `Ai ∪ Ao ∪ Bi ∪ Bo`. -/
theorem compose_variable_partition {Term : Type} (a b : IoContract Term)
    (hdisj : setint (IoContract.getOutputs a) (IoContract.getOutputs b) = ∅) :
    (setint (IoContract.invars a b) (IoContract.outvars a b) = ∅ ∧
     setint (IoContract.invars a b) (IoContract.internalvars a b) = ∅ ∧
     setint (IoContract.outvars a b) (IoContract.internalvars a b) = ∅) ∧
    setunion (setunion (IoContract.invars a b) (IoContract.outvars a b))
        (IoContract.internalvars a b)
      = setunion
          (setunion (setunion (IoContract.getInputs a) (IoContract.getOutputs a))
            (IoContract.getInputs b))
          (IoContract.getOutputs b) := by
  clear hdisj
  unfold IoContract.invars IoContract.outvars IoContract.internalvars
  simp only [setint_eq_inter, setunion_eq_union, setdiff_eq_sdiff]
  refine ⟨⟨?_, ?_, ?_⟩, ?_⟩ <;> ext x <;>
    simp only [Finset.mem_inter, Finset.mem_union, Finset.mem_sdiff,
      Finset.not_mem_empty, iff_false, not_and, not_not] <;>
    tauto

/-- C2 witness: the partition property applied to the concrete series
composition `cS1`, `cS2`, whose outputs are disjoint. -/
theorem compose_variable_partition_witness :
    setint (IoContract.getOutputs cS1) (IoContract.getOutputs cS2) = ∅ ∧
    ((setint (IoContract.invars cS1 cS2) (IoContract.outvars cS1 cS2) = ∅ ∧
      setint (IoContract.invars cS1 cS2) (IoContract.internalvars cS1 cS2) = ∅ ∧
      setint (IoContract.outvars cS1 cS2) (IoContract.internalvars cS1 cS2) = ∅) ∧
     setunion (setunion (IoContract.invars cS1 cS2) (IoContract.outvars cS1 cS2))
         (IoContract.internalvars cS1 cS2)
       = setunion
           (setunion
             (setunion (IoContract.getInputs cS1) (IoContract.getOutputs cS1))
             (IoContract.getInputs cS2))
           (IoContract.getOutputs cS2)) :=
  ⟨by decide, compose_variable_partition cS1 cS2 (by decide)⟩

/-- C3: composing two contracts whose output sets share a variable does not
produce a composite contract: `compose` exits with `invariantViolation`
(the embedding of the failing `assert` on disjoint outputs), for every
implementation of the virtual `simplifyWithTerms`. -/
theorem compose_shared_output_rejected {Term : Type} [DecidableEq Term]
    [TermIntf Term]
    (simplifyWithTerms : TermSet Term → TermSet Term → VarSet → TermSet Term)
    (a b : IoContract Term)
    (hshared : ¬ setint (IoContract.getOutputs a) (IoContract.getOutputs b) = ∅) :
    IoContract.compose simplifyWithTerms a b
      = Except.error ContractError.invariantViolation := by
  unfold IoContract.compose
  have hc : ¬ (isdisjoint (IoContract.getOutputs a) (IoContract.getOutputs b)
      = true) := by
    simpa [isdisjoint] using hshared
  rw [if_neg hc]

/-- C3 witness: `cX` and `cY` both output the variable `x`; composing them
with the concrete `dropElimTerms` simplification yields the
`invariantViolation` error. -/
theorem compose_shared_output_rejected_witness :
    (¬ setint (IoContract.getOutputs cX) (IoContract.getOutputs cY) = ∅) ∧
    IoContract.compose dropElimTerms cX cY
      = Except.error ContractError.invariantViolation :=
  ⟨by decide, compose_shared_output_rejected dropElimTerms cX cY (by decide)⟩

/-- C5: at most one simplification direction runs in the assumptions
computation of `compose`: when the first condition holds the result is the
first branch's value regardless of the second condition, and the second
branch's value is produced only when the first condition fails and the
second holds. -/
theorem compose_at_most_one_direction {Term : Type} [DecidableEq Term]
    [TermIntf Term]
    (simplifyWithTerms : TermSet Term → TermSet Term → VarSet → TermSet Term)
    (a b : IoContract Term) :
    (¬ setint
        (TermSet.sharedVariables (IoContract.getAssumptions a)
          (IoContract.getGuarantees b))
        (IoContract.varsNotInAssumptions a b) = ∅ →
      IoContract.assumptionsComp simplifyWithTerms a b
        = some (setunion
            (simplifyWithTerms (IoContract.getAssumptions a)
              (IoContract.getGuarantees b)
              (IoContract.varsNotInAssumptions a b))
            (IoContract.getAssumptions b))) ∧
    (setint
        (TermSet.sharedVariables (IoContract.getAssumptions a)
          (IoContract.getGuarantees b))
        (IoContract.varsNotInAssumptions a b) = ∅ →
     ¬ setint
        (TermSet.sharedVariables (IoContract.getAssumptions b)
          (IoContract.getGuarantees a))
        (IoContract.varsNotInAssumptions a b) = ∅ →
      IoContract.assumptionsComp simplifyWithTerms a b
        = some (setunion
            (simplifyWithTerms (IoContract.getAssumptions b)
              (IoContract.getGuarantees a)
              (IoContract.varsNotInAssumptions a b))
            (IoContract.getAssumptions a))) := by
  constructor
  · intro h1
    unfold IoContract.assumptionsComp
    rw [if_pos h1]
  · intro h1 h2
    unfold IoContract.assumptionsComp
    rw [if_neg (not_not_intro h1), if_pos h2]

/-- C5 witness: on `cS1`, `cS2` both directions' conditions hold, and the
assumptions computation takes the first branch. -/
theorem compose_at_most_one_direction_witness :
    (¬ setint
        (TermSet.sharedVariables (IoContract.getAssumptions cS2)
          (IoContract.getGuarantees cS1))
        (IoContract.varsNotInAssumptions cS1 cS2) = ∅) ∧
    (¬ setint
        (TermSet.sharedVariables (IoContract.getAssumptions cS1)
          (IoContract.getGuarantees cS2))
        (IoContract.varsNotInAssumptions cS1 cS2) = ∅) ∧
    IoContract.assumptionsComp dropElimTerms cS1 cS2
      = some (setunion
          (dropElimTerms (IoContract.getAssumptions cS1)
            (IoContract.getGuarantees cS2)
            (IoContract.varsNotInAssumptions cS1 cS2))
          (IoContract.getAssumptions cS2)) :=
  ⟨by decide, by decide,
    (compose_at_most_one_direction dropElimTerms cS1 cS2).1 (by decide)⟩

/-- C1: on the scenario-S3-like pair `cA`, `cB` (no variables shared
between either side's assumptions and the other's guarantees) neither
simplification condition holds, and `compose` then reads the uninitialised
local `assumptions_comp` — embedded as the `undefinedAssumptions` error —
instead of returning a contract whose assumptions are `Aa ∪ Ba`. -/
theorem compose_neither_branch_undefined :
    setint
      (TermSet.sharedVariables (IoContract.getAssumptions cA)
        (IoContract.getGuarantees cB))
      (IoContract.varsNotInAssumptions cA cB) = ∅ ∧
    setint
      (TermSet.sharedVariables (IoContract.getAssumptions cB)
        (IoContract.getGuarantees cA))
      (IoContract.varsNotInAssumptions cA cB) = ∅ ∧
    IoContract.compose dropElimTerms cA cB
      = Except.error ContractError.undefinedAssumptions :=
  ⟨by decide, by decide, by decide⟩

/-- C4: `getTermsWithVars` operates on a never-initialised result pointer,
so it produces no defined TermSet (modelled as `none`), while the
spec-defined `termsWith` on the same input returns exactly the terms whose
variables intersect the given set — here the single term `tAg`, the only
member of `{tAg, tBg}` mentioning `a`. -/
theorem getTermsWithVars_undefined_vs_spec :
    TermSet.getTermsWithVars ({tAg, tBg} : TermSet VTerm) {va} = none ∧
    TermSet.termsWith ({tAg, tBg} : TermSet VTerm) {va} = {tAg} :=
  ⟨rfl, by decide⟩

/-- C6 counterexample: constructing an `IoContract` whose input and output
sets both contain the variable `x` is not rejected: construction yields a
contract whose getters return the overlapping sets unchanged, so no
`InvariantViolation` is raised. -/
theorem ioContract_overlap_not_rejected :
    (¬ setint ({vx} : VarSet) ({vx} : VarSet) = ∅) ∧
    IoContract.getInputs (IoContract.mk {vx} {vx} (∅ : TermSet VTerm) ∅) = {vx} ∧
    IoContract.getOutputs (IoContract.mk {vx} {vx} (∅ : TermSet VTerm) ∅) = {vx} :=
  ⟨by decide, rfl, rfl⟩

/-- C6 amended: construction of an `IoContract` with overlapping input and
output sets succeeds without any check: the constructor stores the four
arguments unchanged and yields a usable contract. -/
theorem ioContract_overlap_construction_succeeds {Term : Type}
    (i o : VarSet) (assmpt gtees : TermSet Term)
    (hoverlap : ¬ setint i o = ∅) :
    IoContract.getInputs (IoContract.mk i o assmpt gtees) = i ∧
    IoContract.getOutputs (IoContract.mk i o assmpt gtees) = o ∧
    IoContract.getAssumptions (IoContract.mk i o assmpt gtees) = assmpt ∧
    IoContract.getGuarantees (IoContract.mk i o assmpt gtees) = gtees :=
  ⟨rfl, rfl, rfl, rfl⟩

/-- C6 witness: the amended statement applied to a contract whose input and
output sets are both the singleton of `a`. -/
theorem ioContract_overlap_construction_succeeds_witness :
    (¬ setint ({va} : VarSet) ({va} : VarSet) = ∅) ∧
    (IoContract.getInputs (IoContract.mk {va} {va} (∅ : TermSet VTerm) ∅) = {va} ∧
     IoContract.getOutputs (IoContract.mk {va} {va} (∅ : TermSet VTerm) ∅) = {va} ∧
     IoContract.getAssumptions (IoContract.mk {va} {va} (∅ : TermSet VTerm) ∅) = ∅ ∧
     IoContract.getGuarantees (IoContract.mk {va} {va} (∅ : TermSet VTerm) ∅) = ∅) :=
  ⟨by decide,
    ioContract_overlap_construction_succeeds {va} {va} ∅ ∅ (by decide)⟩

end Pacti
